import Mathlib

/-!
Verification of the summary-sync aggregation service (`src/summary_sync.py`,
`src/main.py`).

The development shallowly embeds the pure core of the program:

* string helpers modelling the Python `str` operations used by the code
  (`lower`, `upper`, `strip`, substring containment, whitespace removal);
  `lower`/`upper` are modelled on the alphabets the program actually
  manipulates (ASCII plus the Cyrillic block А-я and Ё/ё), which is exactly
  Python's behaviour on those characters;
* the Sheet Resolver `find_sheet_smart` (dicts become insertion-ordered
  association lists, which is Python-3.7+ dict iteration order);
* the Header Locator `find_idx` with its `-1` sentinel;
* the Aggregation Engine of `analyze_single_sheet`: the per-row state machine
  (`stepRow`), the per-manager counter map, and the result-table construction;
* the Report Assembler `build_report_values` together with the
  diagnostic-row padding performed by `update_one_month`;
* the Change/Throttle Gate of `update_one_month` (timestamps are embedded as
  integers; the gate only compares and subtracts them);
* `compute_hash`: the exact `json.dumps(..., ensure_ascii=False,
  separators=(",", ":"))` serialization of a grid of cell strings, UTF-8
  encoding, and a full executable SHA-256.

Machine integers of SHA-256 are `Nat` with explicit `% 2^32`.
-/

/-! ## Python string primitives -/

/-- The whitespace class stripped by Python's `str.strip` and matched by the
regex `\s` for the characters this program can meet. -/
def isPySpace (c : Char) : Bool :=
  c = ' ' || c = '\t' || c = '\n' || c = '\r' || c = '\x0b' || c = '\x0c'

/-- `str.lower` on one character, on the alphabets used by the program:
ASCII `A`-`Z`, Cyrillic `А`-`Я` (U+0410..U+042F maps to +0x20) and `Ё`. -/
def pyLowerChar (c : Char) : Char :=
  let n := c.toNat
  if 65 ≤ n ∧ n ≤ 90 then Char.ofNat (n + 32)
  else if 0x410 ≤ n ∧ n ≤ 0x42F then Char.ofNat (n + 32)
  else if n = 0x401 then Char.ofNat 0x451
  else c

/-- `str.upper` on one character (inverse alphabet of `pyLowerChar`). -/
def pyUpperChar (c : Char) : Char :=
  let n := c.toNat
  if 97 ≤ n ∧ n ≤ 122 then Char.ofNat (n - 32)
  else if 0x430 ≤ n ∧ n ≤ 0x44F then Char.ofNat (n - 32)
  else if n = 0x451 then Char.ofNat 0x401
  else c

/-- Python `str.lower`. -/
def pyLower (s : String) : String := String.mk (s.data.map pyLowerChar)

/-- Python `str.strip()`: drop the whitespace class from both ends. -/
def pyStrip (s : String) : String :=
  String.mk (((s.data.dropWhile isPySpace).reverse.dropWhile isPySpace).reverse)

/-- `re.sub(r"\s+", "", s)`: delete every whitespace character. -/
def removeWs (s : String) : String :=
  String.mk (s.data.filter (fun c => !(isPySpace c)))

/-- `needle.isPrefix of hay` on char lists (used to build substring search). -/
def listStarts : List Char → List Char → Bool
  | [], _ => true
  | _ :: _, [] => false
  | a :: as, b :: bs => a == b && listStarts as bs

/-- `needle` occurs somewhere inside `hay` (char lists). -/
def listInf : List Char → List Char → Bool
  | [], _ => true
  | _ :: _, [] => false
  | n, h :: t => listStarts n (h :: t) || listInf n t

/-- Python `needle in hay` on strings (substring containment). -/
def strContains (hay needle : String) : Bool := listInf needle.data hay.data

/-- Python `s1 < s2` on strings: lexicographic comparison of code points. -/
def strLtB : List Char → List Char → Bool
  | [], [] => false
  | [], _ :: _ => true
  | _ :: _, [] => false
  | a :: as, b :: bs =>
    if a.toNat < b.toNat then true
    else if b.toNat < a.toNat then false
    else strLtB as bs

/-! ## Configuration defaults (`summary_sync.py` lines 19-37) -/

/-- `RED_GAP_ROWS` default (env `RED_GAP_ROWS`, default `"5"`). -/
def RED_GAP_ROWS : Nat := 5

/-- `MIN_WRITE_INTERVAL_SEC` default (env default `"60"`), as an integer. -/
def MIN_WRITE_INTERVAL_SEC : Int := 60

/-- `KEYWORDS["MANAGER"]`. -/
def KW_MANAGER : List String := ["менеджер", "сотрудник", "manager"]

/-- `KEYWORDS["OPF"]`. -/
def KW_OPF : List String := ["опф", "форма"]

/-- `KEYWORDS["CONTRACT"]`. -/
def KW_CONTRACT : List String := ["договор", "контракт"]

/-- `KEYWORDS["ACCEPT"]`. -/
def KW_ACCEPT : List String := ["акцепт", "платежки", "оплата", "поехали"]

/-- `KEYWORDS["TAGS"]`. -/
def KW_TAGS : List String := ["метки", "наличие метки", "nib"]

/-! ## Cells and the report header row -/

/-- One cell of an emitted report row.  The Python code mixes strings, ints
and one float ratio inside its row lists; the embedding separates them by
constructor (the ratio is an exact rational). -/
inductive Cell where
  | str (s : String)
  | nat (n : Nat)
  | rat (q : ℚ)
deriving DecidableEq

/-- `HEADERS` (lines 35-38): the fixed 13 report column labels. -/
def HEADERS : List Cell :=
  [Cell.str "Менеджеры", Cell.str "Офферты всего", Cell.str "ИП", Cell.str "ТОО",
   Cell.str "Договор есть", Cell.str "Акцепт/Оплата", Cell.str "Акцепт %",
   Cell.str "Метка nib_sales", Cell.str "Метка nib", Cell.str "Метка 0",
   Cell.str "Пусто", Cell.str "Другое", Cell.str "Красные"]

/-! ## normalize_name (lines 54-60) -/

/-- `normalize_name`: `None` for empty or shorter-than-2 names, else first
character upper-cased and the rest lower-cased. -/
def normalize_name (name : String) : Option String :=
  if name = "" then none
  else
    let s := pyStrip name
    if s.length < 2 then none
    else
      match s.data with
      | [] => none
      | c :: rest => some (String.mk (pyUpperChar c :: rest.map pyLowerChar))

/-! ## find_idx (lines 63-68) -/

/-- Helper of `find_idx`: index of the first header containing any keyword. -/
def findIdxGo (keywords : List String) : List String → Int
  | [] => -1
  | h :: t =>
    if keywords.any (fun k => strContains h k) then 0
    else
      let r := findIdxGo keywords t
      if r = -1 then -1 else r + 1

/-- `find_idx(headers, keywords)`: first header index containing one of the
keywords as a substring, `-1` if none. -/
def find_idx (headers keywords : List String) : Int := findIdxGo keywords headers

/-! ## find_sheet_smart (lines 222-235) -/

/-- First value bound to `key`, like a Python dict access after a `key in d`
check (`titles_lower` is an insertion-ordered association list). -/
def dictLookup : List (String × String) → String → Option String
  | [], _ => none
  | (k, v) :: t, key => if k = key then some v else dictLookup t key

/-- Python `key in d` for the title cache. -/
def dictHasKey (d : List (String × String)) (key : String) : Bool :=
  (dictLookup d key).isSome

/-- The fuzzy loop of `find_sheet_smart`: the first title whose
whitespace-free lower-cased form contains, or is contained in, the cleaned
search string wins. -/
def findFuzzy : List (String × String) → String → Option String
  | [], _ => none
  | (low, real) :: t, sc =>
    if strContains (removeWs low) sc || strContains sc (removeWs low) then some real
    else findFuzzy t sc

/-- `find_sheet_smart(titles_lower, partial_name)` — exact lower-cased match
first, else substring-fuzzy match, else not found. -/
def find_sheet_smart (titles_lower : List (String × String)) (part_name : String) :
    Option String :=
  if part_name = "" then none
  else
    let search := pyLower (pyStrip part_name)
    let search_clean := removeWs search
    if dictHasKey titles_lower search then dictLookup titles_lower search
    else findFuzzy titles_lower search_clean

/-! ## Per-manager counters (lines 287-291) -/

/-- The per-manager counter record created on first encounter of a manager. -/
structure MStats where
  total : Nat
  ip : Nat
  too : Nat
  contract : Nat
  accept : Nat
  nib_sale : Nat
  nib : Nat
  zero : Nat
  empty_tag : Nat
  other_tag : Nat
  red : Nat
deriving DecidableEq

/-- The all-zero record assigned at `stats[manager] = {...0...}`. -/
def zeroStats : MStats := ⟨0, 0, 0, 0, 0, 0, 0, 0, 0, 0, 0⟩

/-- `manager in stats` for the insertion-ordered stats map. -/
def hasKey : List (String × MStats) → String → Bool
  | [], _ => false
  | (k, _) :: t, m => if k = m then true else hasKey t m

/-- `stats[manager]` with the zero record as default for an absent key. -/
def lookupD : List (String × MStats) → String → MStats
  | [], _ => zeroStats
  | (k, v) :: t, m => if k = m then v else lookupD t m

/-- `if manager not in stats: stats[manager] = {...0...}` (append preserves
dict insertion order). -/
def ensureEntry (stats : List (String × MStats)) (m : String) :
    List (String × MStats) :=
  if hasKey stats m then stats else stats ++ [(m, zeroStats)]

/-- In-place mutation of the entry bound to `m` (`s = stats[manager]` then
field updates through the alias `s`). -/
def modifyEntry (stats : List (String × MStats)) (m : String) (f : MStats → MStats) :
    List (String × MStats) :=
  stats.map (fun p => if p.1 = m then (p.1, f p.2) else p)

/-- `s["red"] += 1`. -/
def incRed (s : MStats) : MStats := { s with red := s.red + 1 }

/-- `s["total"] += 1`. -/
def incTotal (s : MStats) : MStats := { s with total := s.total + 1 }

/-- Projection used to say "no counter except `red` changed". -/
def eraseRed (s : MStats) : MStats := { s with red := 0 }

/-! ## The scan state machine of analyze_single_sheet (lines 267-333) -/

/-- Column indices resolved by the Header Locator (`idx` dict, lines 252-258);
`-1` is the not-found sentinel. -/
structure HeaderIdx where
  man : Int
  opf : Int
  contract : Int
  accept : Int
  tags : Int
deriving DecidableEq

/-- Python `row[i]` for a signed index together with `getD` forgiveness for
the (unreachable in the program) out-of-range case. -/
def pyIndex (row : List String) (i : Int) : String :=
  if i < 0 then row.getD (row.length - i.natAbs) "" else row.getD i.toNat ""

/-- `row[idx["man"]] if idx["man"] < len(row) else ""` (line 273). -/
def managerCell (man : Int) (row : List String) : String :=
  if man < (row.length : Int) then pyIndex row man else ""

/-- `" ".join(str(x).lower() for x in row)`. -/
def joinRowLower (row : List String) : String :=
  String.intercalate " " (row.map pyLower)

/-- `opf_text` (lines 300-303): the legal-form cell (when resolved and in
range) followed by a space and the whole row's lower-cased text. -/
def opfText (idx : HeaderIdx) (row : List String) : String :=
  (if idx.opf > -1 ∧ idx.opf < (row.length : Int) then pyLower (pyIndex row idx.opf)
   else "") ++ " " ++ joinRowLower row

/-- Lines 305-308: the two independent legal-form flags. -/
def applyOpf (idx : HeaderIdx) (row : List String) (s : MStats) : MStats :=
  let t := opfText idx row
  let s1 := if strContains t "ип " || strContains t "ип\"" || strContains t "жк "
            then { s with ip := s.ip + 1 } else s
  if strContains t "тоо" then { s1 with too := s1.too + 1 } else s1

/-- The negative-sentinel set of line 312. -/
def contractSentinels : List String := ["", "нет", "0", "-", "—"]

/-- Lines 310-313: the contract counter. -/
def applyContract (idx : HeaderIdx) (row : List String) (s : MStats) : MStats :=
  if idx.contract > -1 ∧ idx.contract < (row.length : Int) then
    let val := pyStrip (pyLower (pyIndex row idx.contract))
    if val ∉ contractSentinels then { s with contract := s.contract + 1 } else s
  else s

/-- Lines 315-318: the acceptance counter. -/
def applyAccept (idx : HeaderIdx) (row : List String) (s : MStats) : MStats :=
  if idx.accept > -1 ∧ idx.accept < (row.length : Int) then
    let val := pyLower (pyIndex row idx.accept)
    if val.length > 1 ∧ strContains val "нет" = false ∧
       strContains val "отказ" = false ∧ strContains val "ошибка" = false then
      { s with accept := s.accept + 1 }
    else s
  else s

/-- `tag_val` (line 320). -/
def tagVal (idx : HeaderIdx) (row : List String) : String :=
  if idx.tags > -1 ∧ idx.tags < (row.length : Int) then
    pyStrip (pyLower (pyIndex row idx.tags))
  else ""

/-- Lines 321-330: the first-match tag bucket chain. -/
def applyTag (idx : HeaderIdx) (row : List String) (s : MStats) : MStats :=
  let tv := tagVal idx row
  if strContains tv "nib_sale" then { s with nib_sale := s.nib_sale + 1 }
  else if tv = "nib" ∨ strContains (" " ++ tv ++ " ") " nib " then
    { s with nib := s.nib + 1 }
  else if tv = "0" ∨ tv = "0.0" then { s with zero := s.zero + 1 }
  else if tv = "" then { s with empty_tag := s.empty_tag + 1 }
  else { s with other_tag := s.other_tag + 1 }

/-- Lines 332-333: the additional red-marker signal scanned in NORMAL zone. -/
def applyRedMark (row : List String) (s : MStats) : MStats :=
  if strContains (joinRowLower row) "красн" then { s with red := s.red + 1 } else s

/-- The whole NORMAL-zone effect of one processed row on its manager's
counters (lines 298-333, in source order). -/
def rowEffect (idx : HeaderIdx) (row : List String) (s : MStats) : MStats :=
  applyRedMark row (applyTag idx row (applyAccept idx row
    (applyContract idx row (applyOpf idx row (incTotal s)))))

/-- The mutable loop state of the scan (lines 267-269). -/
structure ScanState where
  stats : List (String × MStats)
  is_red_section : Bool
  consecutive_empty_rows : Nat
deriving DecidableEq

/-- `stats = {}; is_red_section = False; consecutive_empty_rows = 0`. -/
def initScan : ScanState := ⟨[], false, 0⟩

/-- One iteration of the row loop (lines 271-333). -/
def stepRow (redGap : Nat) (idx : HeaderIdx) (st : ScanState) (row : List String) :
    ScanState :=
  let manager_raw := managerCell idx.man row
  if manager_raw = "" ∨ pyStrip manager_raw = "" then
    let c := st.consecutive_empty_rows + 1
    { st with consecutive_empty_rows := c,
              is_red_section := if c ≥ redGap then true else st.is_red_section }
  else
    let st1 := { st with consecutive_empty_rows := 0 }
    match normalize_name manager_raw with
    | none => st1
    | some manager =>
      if pyLower manager = "менеджер" then st1
      else
        let stats1 := ensureEntry st1.stats manager
        if st1.is_red_section then
          { st1 with stats := modifyEntry stats1 manager incRed }
        else
          { st1 with stats := modifyEntry stats1 manager (rowEffect idx row) }

/-- The full scan `for i in range(1, len(data))` over the data rows. -/
def scanRows (redGap : Nat) (idx : HeaderIdx) (st : ScanState)
    (rows : List (List String)) : ScanState :=
  rows.foldl (stepRow redGap idx) st

/-! ## Result table (lines 335-344) -/

/-- One emitted `ReportRow` for a manager (lines 337-341), with the guarded
accept ratio. -/
def mkResultRow (m : String) (s : MStats) : List Cell :=
  [Cell.str m, Cell.nat s.total, Cell.nat s.ip, Cell.nat s.too,
   Cell.nat s.contract, Cell.nat s.accept,
   Cell.rat (if s.total > 0 then (s.accept : ℚ) / (s.total : ℚ) else 0),
   Cell.nat s.nib_sale, Cell.nat s.nib, Cell.nat s.zero, Cell.nat s.empty_tag,
   Cell.nat s.other_tag, Cell.nat s.red]

/-- `str(x[0])`, the sort key of a result row. -/
def rowKey (r : List Cell) : String :=
  match r.headD (Cell.str "") with
  | Cell.str s => s
  | Cell.nat n => toString n
  | Cell.rat _ => ""

/-- `result.sort(key=lambda x: str(x[0]))` uses Python `<` on the keys. -/
def rowLe (a b : List Cell) : Prop := strLtB (rowKey b).data (rowKey a).data = false

instance : DecidableRel rowLe :=
  fun a b => inferInstanceAs (Decidable (strLtB (rowKey b).data (rowKey a).data = false))

/-- The stable ascending sort of the result table. -/
def sortResult (l : List (List Cell)) : List (List Cell) := List.insertionSort rowLe l

/-! ## analyze_single_sheet, data part (lines 246-344) -/

/-- The lower-cased stripped header labels of row `i` of the sheet. -/
def headersOf (data : List (List String)) (i : Nat) : List String :=
  (data.getD i []).map (fun h => pyStrip (pyLower h))

/-- The manager column resolution with the row-1 fallback (lines 252-262):
note the fallback is attempted only when `len(data) > 2`. -/
def manIdxOf (data : List (List String)) : Int :=
  if find_idx (headersOf data 0) KW_MANAGER = -1 ∧ data.length > 2 then
    find_idx (headersOf data 1) KW_MANAGER
  else find_idx (headersOf data 0) KW_MANAGER

/-- Diagnostic message of line 265. -/
def noManagerMsg : String := "Не найдена колонка \"Менеджер\""

/-- The aggregation run once the manager column is known (lines 252-344 with
`idx["man"] = manIdx`). -/
def aggregate (redGap : Nat) (data : List (List String)) (manIdx : Int) :
    List (List Cell) :=
  let headers := headersOf data 0
  let idx : HeaderIdx :=
    ⟨manIdx, find_idx headers KW_OPF, find_idx headers KW_CONTRACT,
     find_idx headers KW_ACCEPT, find_idx headers KW_TAGS⟩
  let fin := scanRows redGap idx initScan (data.drop 1)
  sortResult (fin.stats.map (fun p => mkResultRow p.1 p.2))

/-- `analyze_single_sheet` after the sheet's rows were fetched (lines
247-344): the transport call `read_values` is elided, `data` is its result. -/
def analyze_data (redGap : Nat) (data : List (List String)) : List (List Cell) :=
  if data.length < 2 then [[Cell.str "Лист пуст"]]
  else if manIdxOf data = -1 then [[Cell.str noManagerMsg]]
  else aggregate redGap data (manIdxOf data)

/-! ## Report Assembler (lines 347-359) and diagnostic padding (lines 521-524) -/

/-- Lines 521-524 of `update_one_month`: a single-cell first row is padded to
the full 13-column width and replaces the whole block. -/
def padDiag : List (List Cell) → List (List Cell)
  | [] => []
  | r :: rest =>
    if r.length = 1 then [r ++ List.replicate 12 (Cell.str "")] else r :: rest

/-- `build_report_values(our_title, our_data, yandex_title, yandex_data)`. -/
def build_report_values (our_title : String) (our_data : List (List Cell))
    (yandex_title : String) (yandex_data : List (List Cell)) : List (List Cell) :=
  ([Cell.str our_title] ++ List.replicate 12 (Cell.str "")) ::
    HEADERS :: our_data ++
    List.replicate 5 (List.replicate 13 (Cell.str "")) ++
    (([Cell.str yandex_title] ++ List.replicate 12 (Cell.str "")) ::
      HEADERS :: yandex_data)

/-- The shape every aggregation output has: full 13-column rows, or one
single-cell diagnostic row. -/
def shapeOK (d : List (List Cell)) : Prop :=
  (∀ r ∈ d, r.length = 13) ∨ (∃ row, d = [row] ∧ row.length = 1)

/-! ## Change/Throttle Gate (lines 533-564) -/

/-- The persisted per-report state `{"hash": ..., "last_write_ts": ...}`;
both fields may be absent (`read_state` returns `{}` on any failure).
Timestamps are embedded as integer epoch seconds. -/
structure SyncState where
  hash : Option String
  last_write_ts : Option Int
deriving DecidableEq

/-- The three outcomes of the gate. -/
inductive GateOutcome where
  | noop
  | defer
  | proceed
deriving DecidableEq

/-- Lines 533-540: hash-equality check first, then the write-interval
throttle; `st.get("last_write_ts", 0)` defaults to 0. -/
def gateDecide (st : SyncState) (new_hash : String) (now interval : Int) :
    GateOutcome :=
  if st.hash = some new_hash then GateOutcome.noop
  else if now - (st.last_write_ts.getD 0) < interval then GateOutcome.defer
  else GateOutcome.proceed

/-- The persisted state after the cycle: `write_state` runs only on the
proceed path (line 564), with the write-time timestamp `nowW`. -/
def gateState (st : SyncState) (new_hash : String) (now nowW interval : Int) :
    SyncState :=
  match gateDecide st new_hash now interval with
  | GateOutcome.proceed => { hash := some new_hash, last_write_ts := some nowW }
  | _ => st

/-! ## compute_hash (lines 79-81): JSON serialization -/

/-- Lower-case hex digit. -/
def hexDigitChar (n : Nat) : Char :=
  Char.ofNat (if n < 10 then 48 + n else 87 + n)

/-- The escaping of `json.dumps` with `ensure_ascii=False`: only `"`, `\`
and control characters below 0x20 are escaped (shortcuts for b, t, n, f, r). -/
def escChar (c : Char) : List Char :=
  if c = '"' then ['\\', '"']
  else if c = '\\' then ['\\', '\\']
  else if c = '\n' then ['\\', 'n']
  else if c = '\r' then ['\\', 'r']
  else if c = '\t' then ['\\', 't']
  else if c = '\x08' then ['\\', 'b']
  else if c = '\x0c' then ['\\', 'f']
  else if c.toNat < 0x20 then
    ['\\', 'u', '0', '0', hexDigitChar (c.toNat / 16), hexDigitChar (c.toNat % 16)]
  else [c]

/-- Escape a whole character list. -/
def escList (l : List Char) : List Char := l.flatMap escChar

/-- JSON string literal of `s`. -/
def encStr (s : String) : List Char := '"' :: (escList s.data ++ ['"'])

/-- `",".join` on already-encoded items (`separators=(",", ":")`). -/
def joinComma : List (List Char) → List Char
  | [] => []
  | [x] => x
  | x :: y :: t => x ++ ',' :: joinComma (y :: t)

/-- JSON array holding one row of cell strings. -/
def encRow (r : List String) : List Char :=
  '[' :: (joinComma (r.map encStr) ++ [']'])

/-- JSON array of arrays: the exact payload `json.dumps(values,
ensure_ascii=False, separators=(",", ":"))` for a grid of cell strings. -/
def encGrid (g : List (List String)) : List Char :=
  '[' :: (joinComma (g.map encRow) ++ [']'])

/-- The serialized payload as a string. -/
def serializeGrid (g : List (List String)) : String := String.mk (encGrid g)

/-! ## SHA-256, executable -/

/-- 2^32. -/
def M32 : Nat := 4294967296

/-- Rotate a 32-bit word right. -/
def rotr (x n : Nat) : Nat := (x >>> n) ||| ((x <<< (32 - n)) % M32)

/-- Big sigma-0. -/
def bsig0 (x : Nat) : Nat := rotr x 2 ^^^ rotr x 13 ^^^ rotr x 22

/-- Big sigma-1. -/
def bsig1 (x : Nat) : Nat := rotr x 6 ^^^ rotr x 11 ^^^ rotr x 25

/-- Small sigma-0. -/
def ssig0 (x : Nat) : Nat := rotr x 7 ^^^ rotr x 18 ^^^ (x >>> 3)

/-- Small sigma-1. -/
def ssig1 (x : Nat) : Nat := rotr x 17 ^^^ rotr x 19 ^^^ (x >>> 10)

/-- Choice function. -/
def chF (x y z : Nat) : Nat := (x &&& y) ^^^ ((x ^^^ 0xFFFFFFFF) &&& z)

/-- Majority function. -/
def majF (x y z : Nat) : Nat := (x &&& y) ^^^ (x &&& z) ^^^ (y &&& z)

/-- Bounded integer k-th root search (fuelled binary search). -/
def irootGo (k n : Nat) : Nat → Nat → Nat → Nat
  | 0, lo, _ => lo
  | f + 1, lo, hi =>
    let mid := (lo + hi) / 2
    if mid ≤ lo then lo
    else if mid ^ k ≤ n then irootGo k n f mid hi
    else irootGo k n f lo mid

/-- Largest `r` with `r ^ k ≤ n`. -/
def iroot (k n : Nat) : Nat := irootGo k n 200 0 (n + 1)

/-- The first 64 primes. -/
def PRIMES64 : List Nat :=
  [2, 3, 5, 7, 11, 13, 17, 19, 23, 29, 31, 37, 41, 43, 47, 53, 59, 61, 67, 71,
   73, 79, 83, 89, 97, 101, 103, 107, 109, 113, 127, 131, 137, 139, 149, 151,
   157, 163, 167, 173, 179, 181, 191, 193, 197, 199, 211, 223, 227, 229, 233,
   239, 241, 251, 257, 263, 269, 271, 277, 281, 283, 293, 307, 311]

/-- The 64 SHA-256 round constants: fractional cube-root bits of the primes. -/
def K256 : List Nat := PRIMES64.map (fun p => iroot 3 (p * 2 ^ 96) % M32)

/-- The 8 initial hash words: fractional square-root bits of the first
8 primes. -/
def H256 : List Nat := (PRIMES64.take 8).map (fun p => iroot 2 (p * 2 ^ 64) % M32)

/-- Working variables of the compression loop. -/
structure ShaState where
  a : Nat
  b : Nat
  c : Nat
  d : Nat
  e : Nat
  f : Nat
  g : Nat
  h : Nat

/-- One round of the SHA-256 compression function. -/
def compressStep (st : ShaState) (kw : Nat × Nat) : ShaState :=
  let t1 := (st.h + bsig1 st.e + chF st.e st.f st.g + kw.1 + kw.2) % M32
  let t2 := (bsig0 st.a + majF st.a st.b st.c) % M32
  ⟨(t1 + t2) % M32, st.a, st.b, st.c, (st.d + t1) % M32, st.e, st.f, st.g⟩

/-- First 16 schedule words from a 64-byte block (big endian). -/
def words16Go : Nat → List Nat → List Nat
  | 0, _ => []
  | f + 1, bytes =>
    ((bytes.getD 0 0) <<< 24 + (bytes.getD 1 0) <<< 16 +
     (bytes.getD 2 0) <<< 8 + bytes.getD 3 0) :: words16Go f (bytes.drop 4)

/-- Extend the schedule to 64 words. -/
def scheduleGo : Nat → List Nat → List Nat
  | 0, w => w
  | f + 1, w =>
    let i := w.length
    let nw := (ssig1 (w.getD (i - 2) 0) + w.getD (i - 7) 0 +
               ssig0 (w.getD (i - 15) 0) + w.getD (i - 16) 0) % M32
    scheduleGo f (w ++ [nw])

/-- Process one 64-byte block. -/
def processBlock (hs : List Nat) (block : List Nat) : List Nat :=
  let w := scheduleGo 48 (words16Go 16 block)
  let st0 : ShaState :=
    ⟨hs.getD 0 0, hs.getD 1 0, hs.getD 2 0, hs.getD 3 0,
     hs.getD 4 0, hs.getD 5 0, hs.getD 6 0, hs.getD 7 0⟩
  let fin := (K256.zip w).foldl compressStep st0
  [(hs.getD 0 0 + fin.a) % M32, (hs.getD 1 0 + fin.b) % M32,
   (hs.getD 2 0 + fin.c) % M32, (hs.getD 3 0 + fin.d) % M32,
   (hs.getD 4 0 + fin.e) % M32, (hs.getD 5 0 + fin.f) % M32,
   (hs.getD 6 0 + fin.g) % M32, (hs.getD 7 0 + fin.h) % M32]

/-- Split into 64-byte blocks (fuelled). -/
def chunksGo : Nat → List Nat → List (List Nat)
  | 0, _ => []
  | f + 1, bytes =>
    if bytes = [] then [] else bytes.take 64 :: chunksGo f (bytes.drop 64)

/-- Message length in bits as 8 big-endian bytes. -/
def lenBE (n : Nat) : List Nat :=
  [(n >>> 56) % 256, (n >>> 48) % 256, (n >>> 40) % 256, (n >>> 32) % 256,
   (n >>> 24) % 256, (n >>> 16) % 256, (n >>> 8) % 256, n % 256]

/-- SHA-256 padding: `0x80`, zeros to 56 mod 64, then the bit length. -/
def padMsg (bytes : List Nat) : List Nat :=
  let L := bytes.length
  bytes ++ (0x80 :: (List.replicate ((119 - (L % 64)) % 64) 0 ++ lenBE (8 * L)))

/-- The eight final hash words of a byte message. -/
def sha256Words (bytes : List Nat) : List Nat :=
  (chunksGo (bytes.length / 64 + 2) (padMsg bytes)).foldl processBlock H256

/-- Eight hex characters of one word. -/
def hexOfWord (w : Nat) : List Char :=
  [hexDigitChar ((w >>> 28) % 16), hexDigitChar ((w >>> 24) % 16),
   hexDigitChar ((w >>> 20) % 16), hexDigitChar ((w >>> 16) % 16),
   hexDigitChar ((w >>> 12) % 16), hexDigitChar ((w >>> 8) % 16),
   hexDigitChar ((w >>> 4) % 16), hexDigitChar (w % 16)]

/-- `hashlib.sha256(...).hexdigest()`. -/
def sha256Hex (bytes : List Nat) : String :=
  String.mk ((sha256Words bytes).flatMap hexOfWord)

/-- UTF-8 bytes of one character. -/
def utf8Char (c : Char) : List Nat :=
  let n := c.toNat
  if n < 0x80 then [n]
  else if n < 0x800 then [0xC0 + (n >>> 6), 0x80 + (n &&& 0x3F)]
  else if n < 0x10000 then
    [0xE0 + (n >>> 12), 0x80 + ((n >>> 6) &&& 0x3F), 0x80 + (n &&& 0x3F)]
  else
    [0xF0 + (n >>> 18), 0x80 + ((n >>> 12) &&& 0x3F), 0x80 + ((n >>> 6) &&& 0x3F),
     0x80 + (n &&& 0x3F)]

/-- `.encode("utf-8")`. -/
def utf8Bytes (l : List Char) : List Nat := l.flatMap utf8Char

/-- `compute_hash(values)` (lines 79-81), for a grid of cell strings:
SHA-256 hex digest of the JSON payload.  No other input enters the digest. -/
def compute_hash (values : List (List String)) : String :=
  sha256Hex (utf8Bytes (encGrid values))

/-! ## Decoders for the serialization (used to prove it injective) -/

/-- Hex digit value. -/
def hexVal (c : Char) : Option Nat :=
  let n := c.toNat
  if 48 ≤ n ∧ n ≤ 57 then some (n - 48)
  else if 97 ≤ n ∧ n ≤ 102 then some (n - 87)
  else none

/-- Inverse of the shortcut escapes. -/
def unescChar (e : Char) : Option Char :=
  if e = '"' then some '"'
  else if e = '\\' then some '\\'
  else if e = 'n' then some '\n'
  else if e = 'r' then some '\r'
  else if e = 't' then some '\t'
  else if e = 'b' then some '\x08'
  else if e = 'f' then some '\x0c'
  else none

/-- Decode one escape chunk. -/
def decEsc : List Char → Option (Char × List Char)
  | [] => none
  | c :: rest =>
    if c = '\\' then
      match rest with
      | [] => none
      | e :: r2 =>
        if e = 'u' then
          match r2 with
          | h1 :: h2 :: h3 :: h4 :: r3 =>
            match hexVal h1, hexVal h2, hexVal h3, hexVal h4 with
            | some a, some b, some c2, some d =>
              some (Char.ofNat (4096 * a + 256 * b + 16 * c2 + d), r3)
            | _, _, _, _ => none
          | _ => none
        else
          match unescChar e with
          | some u => some (u, r2)
          | none => none
    else some (c, rest)

/-- Decode a string body up to its closing quote (fuelled). -/
def decStrF : Nat → List Char → Option (List Char × List Char)
  | 0, _ => none
  | _ + 1, [] => none
  | fuel + 1, c :: rest =>
    if c = '"' then some ([], rest)
    else
      match decEsc (c :: rest) with
      | some (u, r) =>
        match decStrF fuel r with
        | some (s, r2) => some (u :: s, r2)
        | none => none
      | none => none

/-- The encoded tail of a row after its first item: `, item ... ]`. -/
def rowTail : List String → List Char
  | [] => [']']
  | s :: ss => ',' :: (encStr s ++ rowTail ss)

/-- The encoded tail of the grid after its first row. -/
def gridTail : List (List String) → List Char
  | [] => [']']
  | r :: rs => ',' :: (encRow r ++ gridTail rs)

/-! # Theorems -/

/-! ## Utility lemmas -/

theorem listInf_nil (l : List Char) : listInf [] l = true := by
  cases l <;> rfl

theorem strContains_empty_needle (s : String) : strContains s "" = true :=
  listInf_nil s.data

theorem pyLower_empty : pyLower "" = "" := rfl

theorem removeWs_empty : removeWs "" = "" := rfl

theorem pyStrip_of_all_space (s : String) (h : ∀ c ∈ s.data, isPySpace c = true) :
    pyStrip s = "" := by
  unfold pyStrip
  rw [List.dropWhile_eq_nil_iff.mpr h]
  rfl

theorem normalize_name_none_of_short (x : String)
    (h : (pyStrip x).length < 2) : normalize_name x = none := by
  unfold normalize_name
  split
  · rfl
  · rw [if_pos h]

theorem normalize_name_ne_empty_strip (x : String) (m : String)
    (h : normalize_name x = some m) : ¬(x = "" ∨ pyStrip x = "") := by
  rintro (rfl | hs)
  · simp [normalize_name] at h
  · rw [normalize_name_none_of_short x (by simp [hs, String.length])] at h
    exact Option.noConfusion h

/-! ## Claim C3: the Change/Throttle Gate -/

/-- Claim C3: given the persisted state, an unchanged fingerprint always
signals no-op regardless of elapsed time; a changed fingerprint with elapsed
time below the minimum interval signals defer and leaves the persisted state
untouched; otherwise the gate proceeds and the state persisted after the
write holds the new fingerprint and the write-time timestamp. -/
theorem c3_throttle_gate (st : SyncState) (new_hash : String)
    (now nowW interval : Int) :
    (st.hash = some new_hash →
      gateDecide st new_hash now interval = GateOutcome.noop ∧
      gateState st new_hash now nowW interval = st)
    ∧ (st.hash ≠ some new_hash →
        now - st.last_write_ts.getD 0 < interval →
        gateDecide st new_hash now interval = GateOutcome.defer ∧
        gateState st new_hash now nowW interval = st)
    ∧ (st.hash ≠ some new_hash →
        ¬(now - st.last_write_ts.getD 0 < interval) →
        gateDecide st new_hash now interval = GateOutcome.proceed ∧
        gateState st new_hash now nowW interval =
          { hash := some new_hash, last_write_ts := some nowW }) := by
  refine ⟨fun h => ?_, fun h hlt => ?_, fun h hge => ?_⟩
  · simp [gateDecide, gateState, h]
  · simp [gateDecide, gateState, h, hlt]
  · simp [gateDecide, gateState, h, hge]

/-- Witness for C3: all three branches at concrete states. -/
theorem c3_throttle_gate_witness :
    (gateDecide ⟨some "h", some 0⟩ "h" 999999 60 = GateOutcome.noop ∧
      gateState ⟨some "h", some 0⟩ "h" 999999 1000000 60 = ⟨some "h", some 0⟩)
    ∧ (gateDecide ⟨some "g", some 0⟩ "h" 30 60 = GateOutcome.defer ∧
        gateState ⟨some "g", some 0⟩ "h" 30 31 60 = ⟨some "g", some 0⟩)
    ∧ (gateDecide ⟨some "g", some 0⟩ "h" 1000 60 = GateOutcome.proceed ∧
        gateState ⟨some "g", some 0⟩ "h" 1000 1001 60 = ⟨some "h", some 1001⟩) :=
  ⟨(c3_throttle_gate ⟨some "h", some 0⟩ "h" 999999 1000000 60).1 rfl,
   (c3_throttle_gate ⟨some "g", some 0⟩ "h" 30 31 60).2.1 (by decide) (by decide),
   (c3_throttle_gate ⟨some "g", some 0⟩ "h" 1000 1001 60).2.2 (by decide) (by decide)⟩

/-! ## Claim C8: the contract flag -/

/-- Claim C8: the contract counter is incremented exactly when the contract
cell, lower-cased and trimmed, is outside the negative-sentinel set
`{"", "нет", "0", "-", "—"}`; in particular an em-dash cell never sets it. -/
theorem c8_contract_flag (idx : HeaderIdx) (row : List String) (s : MStats)
    (h : idx.contract > -1 ∧ idx.contract < (row.length : Int)) :
    ((applyContract idx row s).contract = s.contract + 1 ↔
      pyStrip (pyLower (pyIndex row idx.contract)) ∉ contractSentinels)
    ∧ (pyIndex row idx.contract = "—" →
        (applyContract idx row s).contract = s.contract) := by
  unfold applyContract
  rw [if_pos h]
  by_cases hm : pyStrip (pyLower (pyIndex row idx.contract)) ∈ contractSentinels
  · rw [if_neg (not_not_intro hm)]
    exact ⟨by constructor <;> intro hx <;> [omega; exact absurd hm hx], fun _ => rfl⟩
  · rw [if_pos hm]
    refine ⟨⟨fun _ => hm, fun _ => rfl⟩, fun hcell => ?_⟩
    exfalso
    apply hm
    rw [hcell]
    decide

/-- Witness for C8: a positive cell increments; derived from the theorem. -/
theorem c8_contract_flag_witness :
    (applyContract ⟨-1, -1, 0, -1, -1⟩ ["подписан"] zeroStats).contract =
      zeroStats.contract + 1 ↔
    pyStrip (pyLower (pyIndex ["подписан"] ((⟨-1, -1, 0, -1, -1⟩ : HeaderIdx).contract)))
      ∉ contractSentinels :=
  (c8_contract_flag ⟨-1, -1, 0, -1, -1⟩ ["подписан"] zeroStats (by decide)).1

/-! ## Claim C9: skipped short/header-echo rows -/

/-- Claim C9: a row whose manager cell is non-empty but trims to fewer than
2 characters, or whose normalized name is the header label "менеджер",
resets the consecutive-empty counter to 0 and changes nothing else: no
counter of any manager moves and no stats entry is created. -/
theorem c9_skipped_row_frame (redGap : Nat) (idx : HeaderIdx) (st : ScanState)
    (row : List String)
    (hne : ¬(managerCell idx.man row = "" ∨ pyStrip (managerCell idx.man row) = ""))
    (hskip : (pyStrip (managerCell idx.man row)).length < 2 ∨
      ∃ m, normalize_name (managerCell idx.man row) = some m ∧
        pyLower m = "менеджер") :
    stepRow redGap idx st row = { st with consecutive_empty_rows := 0 } := by
  unfold stepRow
  rw [if_neg hne]
  rcases hskip with hlen | ⟨m, hm, hl⟩
  · rw [normalize_name_none_of_short _ hlen]
  · rw [hm]
    simp only [if_pos hl]

/-- Witness for C9: a one-letter manager cell at a populated state. -/
theorem c9_skipped_row_frame_witness :
    stepRow 5 ⟨0, -1, -1, -1, -1⟩ ⟨[("Пётр", zeroStats)], false, 3⟩ ["x"] =
      ⟨[("Пётр", zeroStats)], false, 0⟩ :=
  c9_skipped_row_frame 5 ⟨0, -1, -1, -1, -1⟩ ⟨[("Пётр", zeroStats)], false, 3⟩
    ["x"] (by decide) (Or.inl (by decide))

/-! ## Claim C10: whitespace-only requested sheet names -/

/-- Claim C10: on a non-empty title cache, a requested name that is non-empty
but all-whitespace (and whose stripped form is not a cached key) resolves to
the first cached title: the cleaned search string is empty and the empty
string is a substring of every candidate. -/
theorem c10_whitespace_name_resolves (titles : List (String × String))
    (low real : String) (rest : List (String × String)) (name : String)
    (ht : titles = (low, real) :: rest) (hne : name ≠ "")
    (hws : ∀ c ∈ name.data, isPySpace c = true)
    (hkey : dictHasKey titles "" = false) :
    find_sheet_smart titles name = some real := by
  subst ht
  have hstrip : pyStrip name = "" := pyStrip_of_all_space _ hws
  unfold find_sheet_smart
  rw [if_neg hne]
  simp [hstrip, pyLower_empty, removeWs_empty, hkey, findFuzzy,
    strContains_empty_needle]

/-- Witness for C10. -/
theorem c10_whitespace_name_resolves_witness :
    find_sheet_smart [(" лист", "Лист")] " " = some "Лист" :=
  c10_whitespace_name_resolves [(" лист", "Лист")] " лист" "Лист" [] " "
    rfl (by decide) (by decide) (by decide)

/-! ## Claim C7: every emitted report row is 13 cells wide -/

theorem padDiag_width (d : List (List Cell)) (h : shapeOK d) :
    ∀ r ∈ padDiag d, r.length = 13 := by
  intro r hr
  cases d with
  | nil => simp [padDiag] at hr
  | cons r0 rest =>
    simp only [padDiag] at hr
    by_cases hlen : r0.length = 1
    · rw [if_pos hlen] at hr
      simp only [List.mem_singleton] at hr
      subst hr
      simp [hlen]
    · rw [if_neg hlen] at hr
      rcases h with hall | ⟨row, hd, hlen1⟩
      · exact hall r hr
      · injection hd with e1 e2
        exact absurd (e1 ▸ hlen1) hlen

/-- Claim C7: for every pair of aggregation outputs of the legal shapes
(all rows 13 wide, or one single-cell diagnostic row), every row of the
assembled report grid — titles, headers, data, padded diagnostics and the
five gap rows — has exactly 13 cells. -/
theorem c7_report_width (t1 t2 : String) (d1 d2 : List (List Cell))
    (h1 : shapeOK d1) (h2 : shapeOK d2) :
    ∀ r ∈ build_report_values t1 (padDiag d1) t2 (padDiag d2), r.length = 13 := by
  intro r hr
  have p1 := padDiag_width d1 h1
  have p2 := padDiag_width d2 h2
  unfold build_report_values at hr
  simp only [List.mem_cons, List.mem_append, List.mem_replicate] at hr
  rcases hr with ((rfl | rfl | hr) | ⟨-, rfl⟩) | (rfl | rfl | hr)
  · simp
  · rfl
  · exact p1 r hr
  · simp
  · simp
  · rfl
  · exact p2 r hr

/-- Witness for C7: the padded diagnostic row of a concrete report. -/
theorem c7_report_width_witness :
    ([Cell.str "e"] ++ List.replicate 12 (Cell.str "")).length = 13 :=
  c7_report_width "A" "B" [[Cell.str "e"]] []
    (Or.inr ⟨[Cell.str "e"], rfl, rfl⟩) (Or.inl (by simp))
    ([Cell.str "e"] ++ List.replicate 12 (Cell.str "")) (by decide)

/-! ## Frame lemmas for the per-row counter effects -/

theorem incTotal_counts (s : MStats) :
    (incTotal s).total = s.total + 1 ∧ (incTotal s).nib_sale = s.nib_sale ∧
    (incTotal s).nib = s.nib ∧ (incTotal s).zero = s.zero ∧
    (incTotal s).empty_tag = s.empty_tag ∧ (incTotal s).other_tag = s.other_tag := by
  simp [incTotal]

theorem applyOpf_keeps (idx : HeaderIdx) (row : List String) (s : MStats) :
    (applyOpf idx row s).total = s.total ∧ (applyOpf idx row s).nib_sale = s.nib_sale ∧
    (applyOpf idx row s).nib = s.nib ∧ (applyOpf idx row s).zero = s.zero ∧
    (applyOpf idx row s).empty_tag = s.empty_tag ∧
    (applyOpf idx row s).other_tag = s.other_tag := by
  unfold applyOpf
  dsimp only
  split <;> split <;> simp

theorem applyContract_keeps (idx : HeaderIdx) (row : List String) (s : MStats) :
    (applyContract idx row s).total = s.total ∧
    (applyContract idx row s).nib_sale = s.nib_sale ∧
    (applyContract idx row s).nib = s.nib ∧ (applyContract idx row s).zero = s.zero ∧
    (applyContract idx row s).empty_tag = s.empty_tag ∧
    (applyContract idx row s).other_tag = s.other_tag := by
  unfold applyContract
  split
  · dsimp only
    split <;> simp
  · simp

theorem applyAccept_keeps (idx : HeaderIdx) (row : List String) (s : MStats) :
    (applyAccept idx row s).total = s.total ∧
    (applyAccept idx row s).nib_sale = s.nib_sale ∧
    (applyAccept idx row s).nib = s.nib ∧ (applyAccept idx row s).zero = s.zero ∧
    (applyAccept idx row s).empty_tag = s.empty_tag ∧
    (applyAccept idx row s).other_tag = s.other_tag := by
  unfold applyAccept
  split
  · dsimp only
    split <;> simp
  · simp

theorem applyRedMark_keeps (row : List String) (s : MStats) :
    (applyRedMark row s).total = s.total ∧
    (applyRedMark row s).nib_sale = s.nib_sale ∧
    (applyRedMark row s).nib = s.nib ∧ (applyRedMark row s).zero = s.zero ∧
    (applyRedMark row s).empty_tag = s.empty_tag ∧
    (applyRedMark row s).other_tag = s.other_tag := by
  unfold applyRedMark
  split <;> simp

theorem applyTag_counts (idx : HeaderIdx) (row : List String) (s : MStats) :
    (applyTag idx row s).total = s.total ∧
    (applyTag idx row s).nib_sale + (applyTag idx row s).nib +
      (applyTag idx row s).zero + (applyTag idx row s).empty_tag +
      (applyTag idx row s).other_tag =
    s.nib_sale + s.nib + s.zero + s.empty_tag + s.other_tag + 1 := by
  unfold applyTag
  dsimp only
  split
  · refine ⟨rfl, ?_⟩
    simp
    try omega
  · split
    · refine ⟨rfl, ?_⟩
      simp
      try omega
    · split
      · refine ⟨rfl, ?_⟩
        simp
        try omega
      · split
        · refine ⟨rfl, ?_⟩
          simp
          try omega
        · refine ⟨rfl, ?_⟩
          simp
          try omega

theorem rowEffect_counts (idx : HeaderIdx) (row : List String) (s : MStats) :
    (rowEffect idx row s).total = s.total + 1 ∧
    (rowEffect idx row s).nib_sale + (rowEffect idx row s).nib +
      (rowEffect idx row s).zero + (rowEffect idx row s).empty_tag +
      (rowEffect idx row s).other_tag =
    s.nib_sale + s.nib + s.zero + s.empty_tag + s.other_tag + 1 := by
  unfold rowEffect
  obtain ⟨i1, i2, i3, i4, i5, i6⟩ := incTotal_counts s
  obtain ⟨o1, o2, o3, o4, o5, o6⟩ := applyOpf_keeps idx row (incTotal s)
  obtain ⟨c1, c2, c3, c4, c5, c6⟩ :=
    applyContract_keeps idx row (applyOpf idx row (incTotal s))
  obtain ⟨a1, a2, a3, a4, a5, a6⟩ :=
    applyAccept_keeps idx row (applyContract idx row (applyOpf idx row (incTotal s)))
  obtain ⟨t1, t2⟩ := applyTag_counts idx row
    (applyAccept idx row (applyContract idx row (applyOpf idx row (incTotal s))))
  obtain ⟨r1, r2, r3, r4, r5, r6⟩ := applyRedMark_keeps row
    (applyTag idx row
      (applyAccept idx row (applyContract idx row (applyOpf idx row (incTotal s)))))
  exact ⟨by omega, by omega⟩

/-! ## Membership lemmas for the stats map -/

theorem mem_ensureEntry {l : List (String × MStats)} {m : String}
    {p : String × MStats} (h : p ∈ ensureEntry l m) :
    p ∈ l ∨ p = (m, zeroStats) := by
  unfold ensureEntry at h
  split at h
  · exact Or.inl h
  · rcases List.mem_append.mp h with h1 | h2
    · exact Or.inl h1
    · simp only [List.mem_singleton] at h2
      exact Or.inr h2

theorem mem_modifyEntry {l : List (String × MStats)} {m : String}
    {f : MStats → MStats} {p : String × MStats} (h : p ∈ modifyEntry l m f) :
    p ∈ l ∨ ∃ v, (m, v) ∈ l ∧ p = (m, f v) := by
  unfold modifyEntry at h
  obtain ⟨⟨k, v⟩, hq, heq⟩ := List.mem_map.mp h
  dsimp only at heq
  by_cases hk : k = m
  · subst hk
    rw [if_pos rfl] at heq
    exact Or.inr ⟨v, hq, heq.symm⟩
  · rw [if_neg hk] at heq
    exact Or.inl (heq ▸ hq)

/-! ## Claim C1: the tag buckets partition the non-red total -/

theorem stepRow_inv (redGap : Nat) (idx : HeaderIdx) (st : ScanState)
    (row : List String)
    (h : ∀ p ∈ st.stats, p.2.total =
      p.2.nib_sale + p.2.nib + p.2.zero + p.2.empty_tag + p.2.other_tag) :
    ∀ p ∈ (stepRow redGap idx st row).stats, p.2.total =
      p.2.nib_sale + p.2.nib + p.2.zero + p.2.empty_tag + p.2.other_tag := by
  intro p hp
  unfold stepRow at hp
  dsimp only at hp
  split at hp
  · exact h p hp
  · split at hp
    · exact h p hp
    · split at hp
      · exact h p hp
      · split at hp
        · rcases mem_modifyEntry hp with hp1 | ⟨v, hv, rfl⟩
          · rcases mem_ensureEntry hp1 with hp2 | rfl
            · exact h p hp2
            · rfl
          · have hv2 : v.total = v.nib_sale + v.nib + v.zero + v.empty_tag +
                v.other_tag := by
              rcases mem_ensureEntry hv with hv1 | hv1
              · exact h _ hv1
              · cases hv1
                rfl
            simp only [incRed]
            exact hv2
        · rcases mem_modifyEntry hp with hp1 | ⟨v, hv, rfl⟩
          · rcases mem_ensureEntry hp1 with hp2 | rfl
            · exact h p hp2
            · rfl
          · have hv2 : v.total = v.nib_sale + v.nib + v.zero + v.empty_tag +
                v.other_tag := by
              rcases mem_ensureEntry hv with hv1 | hv1
              · exact h _ hv1
              · cases hv1
                rfl
            obtain ⟨e1, e2⟩ := rowEffect_counts idx row v
            dsimp only
            omega

theorem scanRows_inv (redGap : Nat) (idx : HeaderIdx) (rows : List (List String))
    (st : ScanState)
    (h : ∀ p ∈ st.stats, p.2.total =
      p.2.nib_sale + p.2.nib + p.2.zero + p.2.empty_tag + p.2.other_tag) :
    ∀ p ∈ (scanRows redGap idx st rows).stats, p.2.total =
      p.2.nib_sale + p.2.nib + p.2.zero + p.2.empty_tag + p.2.other_tag := by
  induction rows generalizing st with
  | nil => exact h
  | cons row rows ih =>
    have e : scanRows redGap idx st (row :: rows) =
        scanRows redGap idx (stepRow redGap idx st row) rows := by
      simp [scanRows, List.foldl_cons]
    rw [e]
    exact ih _ (stepRow_inv redGap idx st row h)

/-- Claim C1: after a full scan from the initial state, for every manager in
the stats map, `total` equals the sum of the five tag buckets; moreover each
non-red processed row increments `total` by one and the bucket sum by exactly
one. -/
theorem c1_tag_partition :
    (∀ (redGap : Nat) (idx : HeaderIdx) (rows : List (List String)) (m : String)
        (s : MStats), (m, s) ∈ (scanRows redGap idx initScan rows).stats →
        s.total = s.nib_sale + s.nib + s.zero + s.empty_tag + s.other_tag)
    ∧ (∀ (idx : HeaderIdx) (row : List String) (s : MStats),
        (rowEffect idx row s).total = s.total + 1 ∧
        (rowEffect idx row s).nib_sale + (rowEffect idx row s).nib +
          (rowEffect idx row s).zero + (rowEffect idx row s).empty_tag +
          (rowEffect idx row s).other_tag =
        s.nib_sale + s.nib + s.zero + s.empty_tag + s.other_tag + 1) := by
  constructor
  · intro redGap idx rows m s hmem
    exact scanRows_inv redGap idx rows initScan (by simp [initScan]) (m, s) hmem
  · exact rowEffect_counts

/-- Witness for C1 at a one-row scan. -/
theorem c1_tag_partition_witness :
    (⟨1, 0, 0, 0, 0, 0, 0, 0, 1, 0, 0⟩ : MStats).total =
      (⟨1, 0, 0, 0, 0, 0, 0, 0, 1, 0, 0⟩ : MStats).nib_sale +
      (⟨1, 0, 0, 0, 0, 0, 0, 0, 1, 0, 0⟩ : MStats).nib +
      (⟨1, 0, 0, 0, 0, 0, 0, 0, 1, 0, 0⟩ : MStats).zero +
      (⟨1, 0, 0, 0, 0, 0, 0, 0, 1, 0, 0⟩ : MStats).empty_tag +
      (⟨1, 0, 0, 0, 0, 0, 0, 0, 1, 0, 0⟩ : MStats).other_tag :=
  c1_tag_partition.1 5 ⟨0, -1, -1, -1, -1⟩ [["Иванов"]] "Иванов"
    ⟨1, 0, 0, 0, 0, 0, 0, 0, 1, 0, 0⟩ (by decide)

/-! ## Lookup lemmas for the stats map -/

theorem lookupD_append_zero (l : List (String × MStats)) (m0 m : String) :
    lookupD (l ++ [(m0, zeroStats)]) m = lookupD l m := by
  induction l with
  | nil => simp [lookupD]
  | cons p t ih =>
    obtain ⟨k, v⟩ := p
    simp only [List.cons_append, lookupD]
    split
    · rfl
    · exact ih

theorem hasKey_append_self (l : List (String × MStats)) (m : String) (v : MStats) :
    hasKey (l ++ [(m, v)]) m = true := by
  induction l with
  | nil => simp [hasKey]
  | cons p t ih =>
    obtain ⟨k, w⟩ := p
    simp only [List.cons_append, hasKey]
    split
    · rfl
    · exact ih

theorem hasKey_ensure (l : List (String × MStats)) (m : String) :
    hasKey (ensureEntry l m) m = true := by
  unfold ensureEntry
  split
  · assumption
  · exact hasKey_append_self l m zeroStats

theorem lookupD_ensure (l : List (String × MStats)) (m0 m : String) :
    lookupD (ensureEntry l m0) m = lookupD l m := by
  unfold ensureEntry
  split
  · rfl
  · exact lookupD_append_zero l m0 m

theorem lookupD_not_hasKey (l : List (String × MStats)) (m : String)
    (h : hasKey l m = false) : lookupD l m = zeroStats := by
  induction l with
  | nil => rfl
  | cons p t ih =>
    obtain ⟨k, v⟩ := p
    by_cases hk : k = m
    · simp [hasKey, hk] at h
    · simp only [lookupD, if_neg hk]
      apply ih
      simpa [hasKey, hk] using h

theorem modifyEntry_cons (k : String) (v : MStats) (t : List (String × MStats))
    (m : String) (f : MStats → MStats) :
    modifyEntry ((k, v) :: t) m f =
      (if k = m then (k, f v) else (k, v)) :: modifyEntry t m f := rfl

theorem lookupD_modify_self (l : List (String × MStats)) (m : String)
    (f : MStats → MStats) :
    lookupD (modifyEntry l m f) m =
      if hasKey l m = true then f (lookupD l m) else zeroStats := by
  induction l with
  | nil => simp [modifyEntry, lookupD, hasKey]
  | cons p t ih =>
    obtain ⟨k, v⟩ := p
    rw [modifyEntry_cons]
    by_cases hk : k = m
    · subst hk
      rw [if_pos rfl]
      simp [lookupD, hasKey]
    · rw [if_neg hk]
      simp only [lookupD, hasKey, if_neg hk]
      exact ih

theorem lookupD_modify_ne (l : List (String × MStats)) (m0 : String)
    (f : MStats → MStats) (m : String) (h : m ≠ m0) :
    lookupD (modifyEntry l m0 f) m = lookupD l m := by
  induction l with
  | nil => rfl
  | cons p t ih =>
    obtain ⟨k, v⟩ := p
    rw [modifyEntry_cons]
    by_cases hk : k = m0
    · subst hk
      rw [if_pos rfl]
      simp only [lookupD, if_neg (fun e : k = m => h e.symm)]
      exact ih
    · rw [if_neg hk]
      simp only [lookupD]
      split
      · rfl
      · exact ih

/-! ## Claim C2: RED-ZONE is terminal -/

theorem stepRow_red_frame (redGap : Nat) (idx : HeaderIdx) (st : ScanState)
    (row : List String) (h : st.is_red_section = true) :
    (stepRow redGap idx st row).is_red_section = true ∧
    ∀ m, eraseRed (lookupD (stepRow redGap idx st row).stats m) =
      eraseRed (lookupD st.stats m) := by
  unfold stepRow
  dsimp only
  by_cases hcell : managerCell idx.man row = "" ∨ pyStrip (managerCell idx.man row) = ""
  · rw [if_pos hcell]
    refine ⟨?_, fun m => rfl⟩
    simp [h]
  · rw [if_neg hcell]
    cases hn : normalize_name (managerCell idx.man row) with
    | none =>
      simp [hn, h]
    | some manager =>
      simp only [hn]
      by_cases hh : pyLower manager = "менеджер"
      · rw [if_pos hh]
        exact ⟨h, fun m => rfl⟩
      · rw [if_neg hh, if_pos h]
        refine ⟨h, fun m => ?_⟩
        show eraseRed (lookupD (modifyEntry (ensureEntry st.stats manager)
          manager incRed) m) = eraseRed (lookupD st.stats m)
        by_cases hm : m = manager
        · subst hm
          rw [lookupD_modify_self, if_pos (hasKey_ensure _ _), lookupD_ensure]
          rfl
        · rw [lookupD_modify_ne _ _ _ _ hm, lookupD_ensure]

theorem scanRows_red_frame (redGap : Nat) (idx : HeaderIdx)
    (rows : List (List String)) (st : ScanState) (h : st.is_red_section = true) :
    (scanRows redGap idx st rows).is_red_section = true ∧
    ∀ m, eraseRed (lookupD (scanRows redGap idx st rows).stats m) =
      eraseRed (lookupD st.stats m) := by
  induction rows generalizing st with
  | nil => exact ⟨h, fun m => rfl⟩
  | cons row rows ih =>
    obtain ⟨h1, h2⟩ := stepRow_red_frame redGap idx st row h
    obtain ⟨g1, g2⟩ := ih (stepRow redGap idx st row) h1
    have e : scanRows redGap idx st (row :: rows) =
        scanRows redGap idx (stepRow redGap idx st row) rows := by
      simp [scanRows, List.foldl_cons]
    rw [e]
    exact ⟨g1, fun m => (g2 m).trans (h2 m)⟩

theorem stepRow_reset (redGap : Nat) (idx : HeaderIdx) (st : ScanState)
    (row : List String)
    (hne : ¬(managerCell idx.man row = "" ∨ pyStrip (managerCell idx.man row) = "")) :
    (stepRow redGap idx st row).consecutive_empty_rows = 0 ∧
    (stepRow redGap idx st row).is_red_section = st.is_red_section := by
  unfold stepRow
  dsimp only
  rw [if_neg hne]
  cases hn : normalize_name (managerCell idx.man row) with
  | none =>
    simp [hn]
  | some manager =>
    simp only [hn]
    by_cases hh : pyLower manager = "менеджер"
    · rw [if_pos hh]
      exact ⟨rfl, rfl⟩
    · rw [if_neg hh]
      by_cases hr : st.is_red_section = true
      · rw [if_pos hr]
        exact ⟨rfl, rfl⟩
      · rw [if_neg hr]
        exact ⟨rfl, rfl⟩

theorem stepRow_red_incr (redGap : Nat) (idx : HeaderIdx) (st : ScanState)
    (row : List String) (m : String) (h : st.is_red_section = true)
    (hm : normalize_name (managerCell idx.man row) = some m)
    (hhdr : pyLower m ≠ "менеджер") :
    lookupD (stepRow redGap idx st row).stats m = incRed (lookupD st.stats m) := by
  have hne := normalize_name_ne_empty_strip _ _ hm
  unfold stepRow
  dsimp only
  rw [if_neg hne]
  simp only [hm]
  rw [if_neg hhdr, if_pos h]
  show lookupD (modifyEntry (ensureEntry st.stats m) m incRed) m =
    incRed (lookupD st.stats m)
  rw [lookupD_modify_self, if_pos (hasKey_ensure _ _), lookupD_ensure]

/-- Claim C2: once the scan is in RED-ZONE the state is terminal — any
continuation of the scan stays in RED-ZONE and changes no counter other than
`red`; a row with a non-empty manager cell resets the consecutive-empty
counter to 0 without leaving RED-ZONE; and a row with a valid non-header
manager increments exactly that manager's `red` counter. -/
theorem c2_red_zone_terminal (redGap : Nat) (idx : HeaderIdx) (st : ScanState)
    (h : st.is_red_section = true) :
    (∀ rows, (scanRows redGap idx st rows).is_red_section = true ∧
      ∀ m, eraseRed (lookupD (scanRows redGap idx st rows).stats m) =
        eraseRed (lookupD st.stats m))
    ∧ (∀ row,
        ¬(managerCell idx.man row = "" ∨ pyStrip (managerCell idx.man row) = "") →
        (stepRow redGap idx st row).consecutive_empty_rows = 0 ∧
        (stepRow redGap idx st row).is_red_section = true)
    ∧ (∀ row m, normalize_name (managerCell idx.man row) = some m →
        pyLower m ≠ "менеджер" →
        lookupD (stepRow redGap idx st row).stats m = incRed (lookupD st.stats m)) := by
  refine ⟨fun rows => scanRows_red_frame redGap idx rows st h,
    fun row hne => ?_,
    fun row m hm hh => stepRow_red_incr redGap idx st row m h hm hh⟩
  obtain ⟨a, b⟩ := stepRow_reset redGap idx st row hne
  exact ⟨a, b.trans h⟩

/-- Witness for C2 at a concrete red state and a concrete subsequent row. -/
theorem c2_red_zone_terminal_witness :
    (scanRows 5 ⟨0, -1, -1, -1, -1⟩ ⟨[], true, 0⟩ [["Петров"]]).is_red_section = true ∧
    lookupD (stepRow 5 ⟨0, -1, -1, -1, -1⟩ ⟨[], true, 0⟩ ["Петров"]).stats "Петров" =
      incRed (lookupD ([] : List (String × MStats)) "Петров") ∧
    (stepRow 5 ⟨0, -1, -1, -1, -1⟩ ⟨[], true, 0⟩ ["Петров"]).consecutive_empty_rows
      = 0 :=
  ⟨((c2_red_zone_terminal 5 ⟨0, -1, -1, -1, -1⟩ ⟨[], true, 0⟩ rfl).1 [["Петров"]]).1,
   (c2_red_zone_terminal 5 ⟨0, -1, -1, -1, -1⟩ ⟨[], true, 0⟩ rfl).2.2 ["Петров"]
     "Петров" (by decide) (by decide),
   ((c2_red_zone_terminal 5 ⟨0, -1, -1, -1, -1⟩ ⟨[], true, 0⟩ rfl).2.1 ["Петров"]
     (by decide)).1⟩

/-! ## Claim C5: the row-1 header fallback -/

/-- Counterexample to C5 as stated: a sheet with exactly 2 rows whose manager
header sits in row 1.  The code does not retry row 1 (`len(data) > 2` fails)
and returns the diagnostic row, although row 1 would resolve the column. -/
theorem c5_header_fallback_counterexample :
    analyze_data 5 [["x"], ["менеджер"]] = [[Cell.str noManagerMsg]] ∧
    find_idx (headersOf [["x"], ["менеджер"]] 1) KW_MANAGER = 0 ∧
    ([["x"], ["менеджер"]] : List (List String)).length = 2 := by
  refine ⟨by decide, by decide, by decide⟩

/-- Claim C5 (amended: the fallback requires strictly more than 2 rows): for
every sheet with at least 3 rows whose manager column is unresolved from
row 0, the locator retries with row 1; if it is still unresolved the analysis
stops with the single diagnostic row, else the aggregation runs with the
column found in row 1. -/
theorem c5_header_fallback (redGap : Nat) (data : List (List String))
    (h2 : data.length > 2)
    (h0 : find_idx (headersOf data 0) KW_MANAGER = -1) :
    (find_idx (headersOf data 1) KW_MANAGER = -1 →
      analyze_data redGap data = [[Cell.str noManagerMsg]])
    ∧ (find_idx (headersOf data 1) KW_MANAGER ≠ -1 →
      analyze_data redGap data =
        aggregate redGap data (find_idx (headersOf data 1) KW_MANAGER)) := by
  have hman : manIdxOf data = find_idx (headersOf data 1) KW_MANAGER := by
    unfold manIdxOf
    rw [if_pos ⟨h0, h2⟩]
  have hlen : ¬(data.length < 2) := by omega
  constructor
  · intro hm1
    unfold analyze_data
    rw [if_neg hlen, if_pos (hman ▸ hm1)]
  · intro hm1
    unfold analyze_data
    rw [if_neg hlen, if_neg (fun e => hm1 (hman ▸ e)), hman]

/-- Witness for the amended C5: a 3-row sheet resolved through row 1. -/
theorem c5_header_fallback_witness :
    analyze_data 5 [["x"], ["менеджер"], ["Сидоров"]] =
      aggregate 5 [["x"], ["менеджер"], ["Сидоров"]]
        (find_idx (headersOf [["x"], ["менеджер"], ["Сидоров"]] 1) KW_MANAGER) :=
  (c5_header_fallback 5 [["x"], ["менеджер"], ["Сидоров"]]
    (by decide) (by decide)).2 (by decide)

/-! ## Claim C6: the accept ratio never divides by zero -/

/-- Claim C6: every full (13-cell) row of the emitted result table carries
`accept/total` in the ratio column when `total > 0` and exactly `0` when
`total = 0`; the division is guarded, never performed at zero. -/
theorem c6_accept_ratio (redGap : Nat) (data : List (List String))
    (r : List Cell) (hr : r ∈ analyze_data redGap data) (hl : r.length = 13) :
    ∃ total accept : Nat,
      r.getD 1 (Cell.str "") = Cell.nat total ∧
      r.getD 5 (Cell.str "") = Cell.nat accept ∧
      (total > 0 → r.getD 6 (Cell.str "") = Cell.rat ((accept : ℚ) / (total : ℚ))) ∧
      (total = 0 → r.getD 6 (Cell.str "") = Cell.rat 0) := by
  unfold analyze_data at hr
  split at hr
  · simp only [List.mem_singleton] at hr
    subst hr
    simp at hl
  · split at hr
    · simp only [List.mem_singleton] at hr
      subst hr
      simp at hl
    · unfold aggregate at hr
      dsimp only at hr
      unfold sortResult at hr
      have hr2 := (List.perm_insertionSort rowLe _).mem_iff.mp hr
      obtain ⟨⟨m, s⟩, hmem, rfl⟩ := List.mem_map.mp hr2
      refine ⟨s.total, s.accept, rfl, rfl, fun hpos => ?_, fun h0 => ?_⟩
      · show Cell.rat (if s.total > 0 then (s.accept : ℚ) / (s.total : ℚ) else 0) =
          Cell.rat ((s.accept : ℚ) / (s.total : ℚ))
        rw [if_pos hpos]
      · show Cell.rat (if s.total > 0 then (s.accept : ℚ) / (s.total : ℚ) else 0) =
          Cell.rat 0
        rw [if_neg (by omega)]

/-- Witness for C6 at a concrete one-manager sheet. -/
theorem c6_accept_ratio_witness :
    ∃ total accept : Nat,
      (mkResultRow "Иванов" ⟨1, 0, 0, 0, 0, 0, 0, 0, 1, 0, 0⟩).getD 1 (Cell.str "") =
        Cell.nat total ∧
      (mkResultRow "Иванов" ⟨1, 0, 0, 0, 0, 0, 0, 0, 1, 0, 0⟩).getD 5 (Cell.str "") =
        Cell.nat accept ∧
      (total > 0 →
        (mkResultRow "Иванов" ⟨1, 0, 0, 0, 0, 0, 0, 0, 1, 0, 0⟩).getD 6 (Cell.str "") =
          Cell.rat ((accept : ℚ) / (total : ℚ))) ∧
      (total = 0 →
        (mkResultRow "Иванов" ⟨1, 0, 0, 0, 0, 0, 0, 0, 1, 0, 0⟩).getD 6 (Cell.str "") =
          Cell.rat 0) :=
  c6_accept_ratio 5 [["менеджер"], ["Иванов"]]
    (mkResultRow "Иванов" ⟨1, 0, 0, 0, 0, 0, 0, 0, 1, 0, 0⟩)
    (by rw [show analyze_data 5 [["менеджер"], ["Иванов"]] =
        [mkResultRow "Иванов" ⟨1, 0, 0, 0, 0, 0, 0, 0, 1, 0, 0⟩] from rfl]
        exact List.mem_singleton_self _)
    rfl

/-! ## Claim C4: fingerprint determinism and order sensitivity.
First: the JSON escape layer decodes uniquely. -/

theorem hexVal_hexDigitChar (n : Nat) (h : n < 16) :
    hexVal (hexDigitChar n) = some n := by
  interval_cases n <;> decide

theorem escChar_head_ne_quote (c : Char) :
    ∃ hd tl, escChar c = hd :: tl ∧ hd ≠ '"' := by
  unfold escChar
  split_ifs with h1 h2 h3 h4 h5 h6 h7 h8
  · exact ⟨_, _, rfl, by decide⟩
  · exact ⟨_, _, rfl, by decide⟩
  · exact ⟨_, _, rfl, by decide⟩
  · exact ⟨_, _, rfl, by decide⟩
  · exact ⟨_, _, rfl, by decide⟩
  · exact ⟨_, _, rfl, by decide⟩
  · exact ⟨_, _, rfl, by decide⟩
  · exact ⟨_, _, rfl, by decide⟩
  · exact ⟨c, [], rfl, h1⟩

theorem decEsc_escChar (c : Char) (rest : List Char) :
    decEsc (escChar c ++ rest) = some (c, rest) := by
  unfold escChar
  split_ifs with h1 h2 h3 h4 h5 h6 h7 h8
  · subst h1
    simp [decEsc, unescChar]
  · subst h2
    simp [decEsc, unescChar]
  · subst h3
    simp [decEsc, unescChar]
  · subst h4
    simp [decEsc, unescChar]
  · subst h5
    simp [decEsc, unescChar]
  · subst h6
    simp [decEsc, unescChar]
  · subst h7
    simp [decEsc, unescChar]
  · have d1 : c.toNat / 16 < 16 := by omega
    have d2 : c.toNat % 16 < 16 := by omega
    simp only [List.cons_append, List.nil_append, decEsc, if_pos rfl]
    simp only [if_true]
    rw [show hexVal '0' = some 0 from by decide,
      hexVal_hexDigitChar _ d1, hexVal_hexDigitChar _ d2]
    dsimp only
    rw [show 4096 * 0 + 256 * 0 + 16 * (c.toNat / 16) + c.toNat % 16 = c.toNat
      from by omega]
    rw [Char.ofNat_toNat]
  · simp [decEsc, h2]

theorem decStrF_rt (s : List Char) : ∀ (fuel : Nat) (rest : List Char),
    s.length < fuel → decStrF fuel (escList s ++ '"' :: rest) = some (s, rest) := by
  induction s with
  | nil =>
    intro fuel rest hf
    cases fuel with
    | zero => omega
    | succ f => simp [escList, decStrF]
  | cons c s' ih =>
    intro fuel rest hf
    cases fuel with
    | zero => omega
    | succ f =>
      have hf' : s'.length < f := by
        simp only [List.length_cons] at hf
        omega
      have hesc : escList (c :: s') = escChar c ++ escList s' := by
        simp [escList]
      obtain ⟨hd, tl, he, hq⟩ := escChar_head_ne_quote c
      have hde : decEsc (escChar c ++ (escList s' ++ '"' :: rest)) =
          some (c, escList s' ++ '"' :: rest) := decEsc_escChar c _
      rw [he, List.cons_append] at hde
      rw [hesc, List.append_assoc, he, List.cons_append]
      simp only [decStrF]
      rw [if_neg hq, hde]
      dsimp only
      rw [ih f rest hf']

theorem escList_cancel (s1 s2 t1 t2 : List Char)
    (h : escList s1 ++ '"' :: t1 = escList s2 ++ '"' :: t2) :
    s1 = s2 ∧ t1 = t2 := by
  have e1 := decStrF_rt s1 (s1.length + s2.length + 1) t1 (by omega)
  have e2 := decStrF_rt s2 (s1.length + s2.length + 1) t2 (by omega)
  rw [h, e2] at e1
  simpa using e1.symm

theorem encStr_cancel (a b : String) (t1 t2 : List Char)
    (h : encStr a ++ t1 = encStr b ++ t2) : a = b ∧ t1 = t2 := by
  unfold encStr at h
  simp only [List.cons_append, List.append_assoc, List.singleton_append,
    List.cons.injEq] at h
  obtain ⟨hdata, ht⟩ := escList_cancel a.data b.data t1 t2 h.2
  exact ⟨String.ext hdata, ht⟩

/-! ## Row- and grid-level cancellation of the serialization -/

theorem joinComma_encStr_tail (x : List Char) (ss : List String) :
    joinComma (x :: ss.map encStr) ++ [']'] = x ++ rowTail ss := by
  induction ss generalizing x with
  | nil => simp [joinComma, rowTail]
  | cons y t ih =>
    simp only [List.map_cons, joinComma]
    rw [List.append_assoc, List.cons_append, ih (encStr y)]
    simp [rowTail]

theorem encRow_cons (s : String) (ss : List String) :
    encRow (s :: ss) = '[' :: (encStr s ++ rowTail ss) := by
  unfold encRow
  simp only [List.map_cons]
  rw [joinComma_encStr_tail]

theorem rowTail_cancel : ∀ (r1 r2 : List String) (t1 t2 : List Char),
    rowTail r1 ++ t1 = rowTail r2 ++ t2 → r1 = r2 ∧ t1 = t2 := by
  intro r1
  induction r1 with
  | nil =>
    intro r2 t1 t2 h
    cases r2 with
    | nil => exact ⟨rfl, by simpa [rowTail] using h⟩
    | cons s ss => simp [rowTail, List.cons_append] at h
  | cons s1 ss1 ih =>
    intro r2 t1 t2 h
    cases r2 with
    | nil => simp [rowTail, List.cons_append] at h
    | cons s2 ss2 =>
      simp only [rowTail, List.cons_append, List.append_assoc,
        List.cons.injEq, true_and] at h
      obtain ⟨hs, ht⟩ := encStr_cancel s1 s2 _ _ h
      obtain ⟨hss, htt⟩ := ih ss2 t1 t2 ht
      exact ⟨by rw [hs, hss], htt⟩

theorem encRow_cancel : ∀ (r1 r2 : List String) (t1 t2 : List Char),
    encRow r1 ++ t1 = encRow r2 ++ t2 → r1 = r2 ∧ t1 = t2 := by
  intro r1 r2 t1 t2 h
  cases r1 with
  | nil =>
    cases r2 with
    | nil => exact ⟨rfl, by simpa [encRow, joinComma] using h⟩
    | cons s ss =>
      rw [encRow_cons] at h
      simp [encRow, joinComma, encStr, List.cons_append] at h
  | cons s1 ss1 =>
    cases r2 with
    | nil =>
      rw [encRow_cons] at h
      simp [encRow, joinComma, encStr, List.cons_append] at h
    | cons s2 ss2 =>
      rw [encRow_cons, encRow_cons] at h
      simp only [List.cons_append, List.append_assoc, List.cons.injEq,
        true_and] at h
      obtain ⟨hs, ht⟩ := encStr_cancel s1 s2 _ _ h
      obtain ⟨hss, htt⟩ := rowTail_cancel ss1 ss2 _ _ ht
      exact ⟨by rw [hs, hss], htt⟩

theorem joinComma_encRow_tail (x : List Char) (rs : List (List String)) :
    joinComma (x :: rs.map encRow) ++ [']'] = x ++ gridTail rs := by
  induction rs generalizing x with
  | nil => simp [joinComma, gridTail]
  | cons y t ih =>
    simp only [List.map_cons, joinComma]
    rw [List.append_assoc, List.cons_append, ih (encRow y)]
    simp [gridTail]

theorem encGrid_cons (r : List String) (rs : List (List String)) :
    encGrid (r :: rs) = '[' :: (encRow r ++ gridTail rs) := by
  unfold encGrid
  simp only [List.map_cons]
  rw [joinComma_encRow_tail]

theorem encRow_head (r : List String) : ∃ tl, encRow r = '[' :: tl := by
  cases r with
  | nil => exact ⟨[']'], rfl⟩
  | cons s ss => exact ⟨_, encRow_cons s ss⟩

theorem gridTail_cancel : ∀ (g1 g2 : List (List String)) (t1 t2 : List Char),
    gridTail g1 ++ t1 = gridTail g2 ++ t2 → g1 = g2 ∧ t1 = t2 := by
  intro g1
  induction g1 with
  | nil =>
    intro g2 t1 t2 h
    cases g2 with
    | nil => exact ⟨rfl, by simpa [gridTail] using h⟩
    | cons r rs => simp [gridTail, List.cons_append] at h
  | cons r1 rs1 ih =>
    intro g2 t1 t2 h
    cases g2 with
    | nil => simp [gridTail, List.cons_append] at h
    | cons r2 rs2 =>
      simp only [gridTail, List.cons_append, List.append_assoc,
        List.cons.injEq, true_and] at h
      obtain ⟨hs, ht⟩ := encRow_cancel r1 r2 _ _ h
      obtain ⟨hss, htt⟩ := ih rs2 t1 t2 ht
      exact ⟨by rw [hs, hss], htt⟩

theorem encGrid_cancel : ∀ (g1 g2 : List (List String)) (t1 t2 : List Char),
    encGrid g1 ++ t1 = encGrid g2 ++ t2 → g1 = g2 ∧ t1 = t2 := by
  intro g1 g2 t1 t2 h
  cases g1 with
  | nil =>
    cases g2 with
    | nil => exact ⟨rfl, by simpa [encGrid, joinComma] using h⟩
    | cons r rs =>
      rw [encGrid_cons] at h
      obtain ⟨tl, htl⟩ := encRow_head r
      rw [htl] at h
      simp [encGrid, joinComma, List.cons_append] at h
  | cons r1 rs1 =>
    cases g2 with
    | nil =>
      rw [encGrid_cons] at h
      obtain ⟨tl, htl⟩ := encRow_head r1
      rw [htl] at h
      simp [encGrid, joinComma, List.cons_append] at h
    | cons r2 rs2 =>
      rw [encGrid_cons, encGrid_cons] at h
      simp only [List.cons_append, List.append_assoc, List.cons.injEq,
        true_and] at h
      obtain ⟨hs, ht⟩ := encRow_cancel r1 r2 _ _ h
      obtain ⟨hss, htt⟩ := gridTail_cancel rs1 rs2 _ _ ht
      exact ⟨by rw [hs, hss], htt⟩

theorem encGrid_inj (g1 g2 : List (List String)) (h : encGrid g1 = encGrid g2) :
    g1 = g2 :=
  (encGrid_cancel g1 g2 [] [] (by simpa using h)).1

theorem serializeGrid_inj (g1 g2 : List (List String))
    (h : serializeGrid g1 = serializeGrid g2) : g1 = g2 :=
  encGrid_inj _ _ (congrArg String.data h)

/-! ## SHA-256 test vectors (FIPS 180-2 appendix vectors) -/

set_option maxRecDepth 100000 in
theorem sha256_vector_abc :
    sha256Hex (utf8Bytes "abc".data) =
      "ba7816bf8f01cfea414140de5dae2223b00361a396177a9cb410ff61f20015ad" := by
  decide

set_option maxRecDepth 100000 in
theorem sha256_vector_empty :
    sha256Hex (utf8Bytes "".data) =
      "e3b0c44298fc1c149afbf4c8996fb92427ae41e4649b934ca495991b7852b855" := by
  decide

set_option maxRecDepth 100000 in
/-- Claim C4: the report fingerprint is a pure function of the grid — equal
grids always hash equal, nothing else enters the hashed payload — and the
serialized payload is injective, so grids differing only in row order feed
different payloads to SHA-256; at a concrete row-reordered pair the digests
themselves differ. -/
theorem c4_fingerprint_deterministic_order_sensitive :
    (∀ v1 v2 : List (List String), v1 = v2 → compute_hash v1 = compute_hash v2)
    ∧ (∀ v1 v2 : List (List String), v1.Perm v2 → v1 ≠ v2 →
        serializeGrid v1 ≠ serializeGrid v2)
    ∧ (([["a"], ["b"]] : List (List String)).Perm [["b"], ["a"]] ∧
        ([["a"], ["b"]] : List (List String)) ≠ [["b"], ["a"]] ∧
        compute_hash [["a"], ["b"]] ≠ compute_hash [["b"], ["a"]]) := by
  refine ⟨fun v1 v2 h => by rw [h],
    fun v1 v2 _ hne hser => hne (serializeGrid_inj _ _ hser),
    List.Perm.swap ["b"] ["a"] [], by decide, by decide⟩

/-- Witness for C4: determinism and payload order-sensitivity at concrete
grids. -/
theorem c4_fingerprint_witness :
    compute_hash [["x"]] = compute_hash [["x"]] ∧
    serializeGrid [["a"], ["b"]] ≠ serializeGrid [["b"], ["a"]] :=
  ⟨c4_fingerprint_deterministic_order_sensitive.1 [["x"]] [["x"]] rfl,
   c4_fingerprint_deterministic_order_sensitive.2.1 [["a"], ["b"]] [["b"], ["a"]]
     (List.Perm.swap ["b"] ["a"] []) (by decide)⟩
